import Mathlib

/-!
Verification of the FreshMac two-stage pipeline (resolver.py and enrich.py).

Python strings are modelled as lists of Unicode code points (`List Nat`),
which makes Python string comparison (code-point lexicographic) and the
ASCII case operations used by the pipeline exact and decidable.
-/

/-- A Python string, modelled as its sequence of Unicode code points. -/
abbrev PyStr := List Nat

/-- Embed a Lean string literal as a `PyStr` (its code points). -/
def str (s : String) : PyStr := s.data.map Char.toNat

/-- Code point of a character, for writing character constants. -/
def chr (c : Char) : Nat := c.toNat

/-- One character of Python `str.lower()`: ASCII uppercase letters are mapped
to the corresponding lowercase letter (code point + 32), everything else kept. -/
def pyLowerChar (c : Nat) : Nat :=
  if 65 ≤ c ∧ c ≤ 90 then c + 32 else c

/-- Python `s.lower()`. -/
def pyLower (s : PyStr) : PyStr := s.map pyLowerChar

/-- Python `s.replace(old, new)` for one-character `old` and `new`:
replaces every occurrence of the character `old` by `new`. -/
def pyReplaceChar (old new : Nat) (s : PyStr) : PyStr :=
  s.map (fun c => if c = old then new else c)

/-- `normalize_name` from resolver.py:
`name.lower().replace(' ', '-').replace('_', '-')`. -/
def normalize_name (name : PyStr) : PyStr :=
  pyReplaceChar (chr '_') (chr '-') (pyReplaceChar (chr ' ') (chr '-') (pyLower name))

/-- A record of the `brew_installable` bucket: `{'app': app, 'command': norm}`. -/
structure ResolvedRecord where
  app : PyStr
  command : PyStr
deriving DecidableEq

/-- A record of the `unresolved` bucket: `{'app': app, 'normalized': norm}`. -/
structure UnresolvedRecord where
  app : PyStr
  normalized : PyStr
deriving DecidableEq

/-- The resolution loop of resolver.py `main`: for each app, compute
`norm = normalize_name(app)`; if `norm in brew_available` append
`{'app': app, 'command': norm}` to `resolved`, else append
`{'app': app, 'normalized': norm}` to `unresolved`.  The Python set
`brew_available` is modelled as a list with membership testing. -/
def resolve : List PyStr → List PyStr → List ResolvedRecord × List UnresolvedRecord
  | [], _ => ([], [])
  | app :: rest, brew_available =>
    let norm := normalize_name app
    let prev := resolve rest brew_available
    if norm ∈ brew_available then (⟨app, norm⟩ :: prev.1, prev.2)
    else (prev.1, ⟨app, norm⟩ :: prev.2)

/-- Python whitespace characters stripped by `str.strip()`:
space, tab, newline, carriage return, vertical tab, form feed. -/
def isPySpace (c : Nat) : Bool :=
  c = 32 || c = 9 || c = 10 || c = 13 || c = 11 || c = 12

/-- Python `line.strip()`: drop leading and trailing whitespace. -/
def pyStrip (s : PyStr) : PyStr :=
  ((s.dropWhile isPySpace).reverse.dropWhile isPySpace).reverse

/-- Reading the raw apps file in resolver.py:
`apps = [line.strip() for line in f if line.strip()]`
(the stripped non-empty lines, in order). -/
def readApps (lines : List PyStr) : List PyStr :=
  (lines.map pyStrip).filter (fun l => decide (l ≠ []))

/-- resolver.py `main` after CLI parsing: the apps file is `none` when the
`--apps-raw` path does not exist (then both buckets stay empty), otherwise
its lines are stripped, filtered and resolved against the catalog. -/
def resolverMain (appsFile : Option (List PyStr)) (brew_available : List PyStr) :
    List ResolvedRecord × List UnresolvedRecord :=
  match appsFile with
  | none => ([], [])
  | some lines => resolve (readApps lines) brew_available

/-- `VENDOR_MAP` from enrich.py: the static vendor table, an association
list from normalized app names to official vendor download URLs. -/
def VENDOR_MAP : List (PyStr × PyStr) :=
  [ (str "github-desktop", str "https://desktop.github.com"),
    (str "visual-studio-code", str "https://code.visualstudio.com"),
    (str "chrome", str "https://www.google.com/chrome"),
    (str "firefox", str "https://www.mozilla.org/firefox"),
    (str "vlc", str "https://www.videolan.org"),
    (str "discord", str "https://discord.com/download"),
    (str "telegram", str "https://telegram.org"),
    (str "whatsapp", str "https://www.whatsapp.com/download"),
    (str "slack", str "https://slack.com/downloads"),
    (str "zoom", str "https://zoom.us/download") ]

/-- Python dict lookup `table[k]` guarded by `k in table`, modelled on the
association list: `some v` on a hit, `none` on a miss. -/
def dictGet (k : PyStr) : List (PyStr × PyStr) → Option PyStr
  | [] => none
  | (k2, v) :: rest => if k = k2 then some v else dictGet k rest

/-- An entry of the `unresolved` list as the Enricher reads it.  The two
fields it accesses are modelled with `Option` so that a record can lack the
`app` or the `normalized` key (Python `item.get(key, default)`). -/
structure InRecord where
  app : Option PyStr
  normalized : Option PyStr
deriving DecidableEq

/-- An entry after enrichment: the `official_download_url` and `confidence`
fields have been added, the other fields are untouched. -/
structure EnrichedRecord where
  app : Option PyStr
  normalized : Option PyStr
  official_download_url : PyStr
  confidence : PyStr
deriving DecidableEq

/-- The enrichment loop body of enrich.py `main`:
`norm = item.get('normalized', '').lower()`; on a `VENDOR_MAP` hit the
table URL and `confidence='high'` are attached, on a miss the literal
string `'Not found'` and `confidence='low'`. -/
def enrichItem (item : InRecord) : EnrichedRecord :=
  let norm := pyLower (item.normalized.getD [])
  match dictGet norm VENDOR_MAP with
  | some url => ⟨item.app, item.normalized, url, str "high"⟩
  | none => ⟨item.app, item.normalized, str "Not found", str "low"⟩

/-- The sort key of enrich.py: `lambda x: x.get('app', '')`. -/
def appKey (r : EnrichedRecord) : PyStr := r.app.getD []

/-- Python string comparison `s <= t`: lexicographic by code point. -/
def strLe : PyStr → PyStr → Bool
  | [], _ => true
  | _ :: _, [] => false
  | a :: s, b :: t => if a < b then true else if a = b then strLe s t else false

/-- Insertion step of the stable sort: the new element goes in front of the
first element whose key is not smaller.  Since the sort inserts elements
from the last input position to the first, each element lands in front of
the equal-key elements that came later in the input, which is stability. -/
def stableInsert (x : EnrichedRecord) : List EnrichedRecord → List EnrichedRecord
  | [] => [x]
  | y :: l => if strLe (appKey x) (appKey y) then x :: y :: l else y :: stableInsert x l

/-- Python `sorted(unresolved, key=lambda x: x.get('app', ''))`: a stable
sort, ascending by the `app` field with a missing field read as the empty
string; modelled as stable insertion sort with the same key. -/
def pySortByApp : List EnrichedRecord → List EnrichedRecord
  | [] => []
  | x :: l => stableInsert x (pySortByApp l)

/-- The parsed `--resolved` JSON object; `unresolved = none` models an
object that lacks the `unresolved` key (`data.get('unresolved', [])`). -/
structure ResolvedFile where
  unresolved : Option (List InRecord)

/-- enrich.py `main` after CLI parsing: `none` models a `--resolved` path
that does not exist (then `unresolved` stays `[]`); otherwise the
`unresolved` list is read with default `[]`, each item is enriched, and the
output is the enriched list sorted by the `app` key. -/
def enrichMain (file : Option ResolvedFile) : List EnrichedRecord :=
  let unresolved : List InRecord :=
    match file with
    | some data => data.unresolved.getD []
    | none => []
  pySortByApp (unresolved.map enrichItem)

/-- The action of `normalize_name` on a single code point: lowercase, then
space to hyphen, then underscore to hyphen. -/
def normChar (c : Nat) : Nat :=
  let l := pyLowerChar c
  let r := if l = chr ' ' then chr '-' else l
  if r = chr '_' then chr '-' else r

/-- Forget the two fields added by enrichment, keeping `app` and
`normalized` as they were read. -/
def stripAdded (r : EnrichedRecord) : InRecord := ⟨r.app, r.normalized⟩

/-! ### Helper lemmas: code points of the characters used by the pipeline -/

theorem chr_space : chr ' ' = 32 := rfl

theorem chr_underscore : chr '_' = 95 := rfl

theorem chr_hyphen : chr '-' = 45 := rfl

/-! ### Helper lemmas: `normalize_name` -/

theorem normalize_name_eq_map (s : PyStr) : normalize_name s = s.map normChar := by
  simp only [normalize_name, pyReplaceChar, pyLower, List.map_map]
  rfl

theorem normChar_idem (c : Nat) : normChar (normChar c) = normChar c := by
  simp only [normChar, pyLowerChar, chr_space, chr_underscore, chr_hyphen]
  split_ifs <;> omega

/-! ### Helper lemmas: the resolver loop -/

theorem resolve_fst : ∀ apps catalog : List PyStr,
    (resolve apps catalog).1 =
      (apps.filter (fun a => decide (normalize_name a ∈ catalog))).map
        (fun a => ⟨a, normalize_name a⟩)
  | [], _ => rfl
  | app :: rest, catalog => by
    by_cases h : normalize_name app ∈ catalog <;>
      simp [resolve, List.filter_cons, h, resolve_fst rest catalog]

theorem resolve_snd : ∀ apps catalog : List PyStr,
    (resolve apps catalog).2 =
      (apps.filter (fun a => !decide (normalize_name a ∈ catalog))).map
        (fun a => ⟨a, normalize_name a⟩)
  | [], _ => rfl
  | app :: rest, catalog => by
    by_cases h : normalize_name app ∈ catalog <;>
      simp [resolve, List.filter_cons, h, resolve_snd rest catalog]

/-! ### Helper lemmas: the lexicographic comparison `strLe` -/

theorem strLe_refl : ∀ s : PyStr, strLe s s = true
  | [] => rfl
  | a :: s => by simp [strLe, strLe_refl s]

theorem strLe_total : ∀ s t : PyStr, strLe s t = true ∨ strLe t s = true
  | [], _ => Or.inl rfl
  | _ :: _, [] => Or.inr rfl
  | a :: s, b :: t => by
    rcases Nat.lt_trichotomy a b with h | h | h
    · left; simp [strLe, h]
    · subst h
      rcases strLe_total s t with h2 | h2
      · left; simp [strLe, h2]
      · right; simp [strLe, h2]
    · right; simp [strLe, h]

theorem strLe_trans : ∀ s t u : PyStr,
    strLe s t = true → strLe t u = true → strLe s u = true
  | [], _, _, _, _ => rfl
  | _ :: _, [], _, h1, _ => by simp [strLe] at h1
  | _ :: _, _ :: _, [], _, h2 => by simp [strLe] at h2
  | a :: s, b :: t, c :: u, h1, h2 => by
    by_cases hab : a < b
    · by_cases hbc : b < c
      · simp [strLe, Nat.lt_trans hab hbc]
      · by_cases hbc2 : b = c
        · subst hbc2; simp [strLe, hab]
        · simp [strLe, hbc, hbc2] at h2
    · by_cases hab2 : a = b
      · subst hab2
        simp only [strLe, lt_self_iff_false, if_false, if_pos rfl] at h1
        by_cases hbc : a < c
        · simp [strLe, hbc]
        · by_cases hbc2 : a = c
          · subst hbc2
            simp only [strLe, lt_self_iff_false, if_false, if_pos rfl] at h2 ⊢
            exact strLe_trans s t u h1 h2
          · simp [strLe, hbc, hbc2] at h2
      · simp [strLe, hab, hab2] at h1

/-! ### Helper lemmas: the stable sort of the Enricher -/

theorem stableInsert_perm (x : EnrichedRecord) :
    ∀ l : List EnrichedRecord, List.Perm (stableInsert x l) (x :: l)
  | [] => List.Perm.refl _
  | y :: l => by
    simp only [stableInsert]
    split
    · exact List.Perm.refl _
    · exact ((stableInsert_perm x l).cons y).trans (List.Perm.swap x y l)

theorem pySortByApp_perm : ∀ l : List EnrichedRecord, List.Perm (pySortByApp l) l
  | [] => List.Perm.refl _
  | x :: l => (stableInsert_perm x (pySortByApp l)).trans ((pySortByApp_perm l).cons x)

theorem pairwise_stableInsert (x : EnrichedRecord) :
    ∀ l : List EnrichedRecord,
      l.Pairwise (fun a b => strLe (appKey a) (appKey b) = true) →
      (stableInsert x l).Pairwise (fun a b => strLe (appKey a) (appKey b) = true)
  | [], _ => by simp [stableInsert]
  | y :: l, h => by
    rw [List.pairwise_cons] at h
    obtain ⟨hy, hl⟩ := h
    simp only [stableInsert]
    by_cases hxy : strLe (appKey x) (appKey y) = true
    · rw [if_pos hxy]
      refine List.Pairwise.cons ?_ (List.Pairwise.cons hy hl)
      intro z hz
      rcases List.mem_cons.mp hz with rfl | hz2
      · exact hxy
      · exact strLe_trans _ _ _ hxy (hy z hz2)
    · rw [if_neg hxy]
      refine List.Pairwise.cons ?_ (pairwise_stableInsert x l hl)
      intro z hz
      rcases List.mem_cons.mp ((stableInsert_perm x l).mem_iff.mp hz) with rfl | hz2
      · rcases strLe_total (appKey z) (appKey y) with h2 | h2
        · exact absurd h2 hxy
        · exact h2
      · exact hy z hz2

theorem pairwise_pySortByApp :
    ∀ l : List EnrichedRecord,
      (pySortByApp l).Pairwise (fun a b => strLe (appKey a) (appKey b) = true)
  | [] => List.Pairwise.nil
  | x :: l => pairwise_stableInsert x _ (pairwise_pySortByApp l)

theorem filter_stableInsert (x : EnrichedRecord) (k : PyStr) :
    ∀ l : List EnrichedRecord,
      (stableInsert x l).filter (fun r => decide (appKey r = k)) =
        if appKey x = k then x :: l.filter (fun r => decide (appKey r = k))
        else l.filter (fun r => decide (appKey r = k))
  | [] => by
    by_cases h : appKey x = k <;> simp [stableInsert, h]
  | y :: l => by
    simp only [stableInsert]
    by_cases hxy : strLe (appKey x) (appKey y) = true
    · rw [if_pos hxy]
      by_cases hx : appKey x = k <;> by_cases hy : appKey y = k <;>
        simp [List.filter_cons, hx, hy]
    · rw [if_neg hxy]
      by_cases hx : appKey x = k
      · have hyk : ¬ appKey y = k := by
          intro hcontra
          apply hxy
          have hxy2 : appKey x = appKey y := hx.trans hcontra.symm
          rw [hxy2]
          exact strLe_refl _
        simp [List.filter_cons, hx, hyk, filter_stableInsert x k l]
      · simp [List.filter_cons, hx, filter_stableInsert x k l]

theorem filter_pySortByApp (k : PyStr) :
    ∀ l : List EnrichedRecord,
      (pySortByApp l).filter (fun r => decide (appKey r = k)) =
        l.filter (fun r => decide (appKey r = k))
  | [] => rfl
  | x :: l => by
    by_cases hx : appKey x = k <;>
      simp [pySortByApp, filter_stableInsert, filter_pySortByApp k l,
        List.filter_cons, hx]

/-! ### Helper lemmas: enrichment frame -/

theorem stripAdded_enrichItem (item : InRecord) : stripAdded (enrichItem item) = item := by
  cases item
  simp only [enrichItem]
  split <;> rfl

/-! ### Claim theorems -/

/-- C1: for every list of app names and every catalog, `resolve` partitions
the input: `brew_installable` is the in-order subsequence of apps whose
normalized name is in the catalog, emitted as `{app, command}`; `unresolved`
is the in-order subsequence of the remaining apps, emitted as
`{app, normalized}`; and no app name appears in both buckets. -/
theorem resolve_partitions_input (apps catalog : List PyStr) :
    (resolve apps catalog).1 =
      (apps.filter (fun a => decide (normalize_name a ∈ catalog))).map
        (fun a => ⟨a, normalize_name a⟩)
  ∧ (resolve apps catalog).2 =
      (apps.filter (fun a => !decide (normalize_name a ∈ catalog))).map
        (fun a => ⟨a, normalize_name a⟩)
  ∧ ∀ a : PyStr, a ∈ (resolve apps catalog).1.map ResolvedRecord.app →
      a ∉ (resolve apps catalog).2.map UnresolvedRecord.app := by
  refine ⟨resolve_fst apps catalog, resolve_snd apps catalog, ?_⟩
  intro a h1 h2
  rw [resolve_fst apps catalog] at h1
  rw [resolve_snd apps catalog] at h2
  rw [List.map_map] at h1 h2
  obtain ⟨b, hb, rfl⟩ := List.mem_map.mp h1
  obtain ⟨c, hc, hcb⟩ := List.mem_map.mp h2
  have hbmem : normalize_name b ∈ catalog := by
    have := List.of_mem_filter hb
    simpa using this
  have hcmem : ¬ normalize_name c ∈ catalog := by
    have := List.of_mem_filter hc
    simpa using this
  have hbc : c = b := hcb
  rw [hbc] at hcmem
  exact hcmem hbmem

/-- Witness for C1 at the example of the spec: apps
`["Visual Studio Code", "Google Chrome"]` against a catalog containing only
`visual-studio-code`. -/
theorem resolve_partitions_input_witness :
    (str "Visual Studio Code") ∈
      ((resolve [str "Visual Studio Code", str "Google Chrome"]
          [str "visual-studio-code"]).1.map ResolvedRecord.app)
  ∧ (str "Visual Studio Code") ∉
      ((resolve [str "Visual Studio Code", str "Google Chrome"]
          [str "visual-studio-code"]).2.map UnresolvedRecord.app) :=
  ⟨by decide,
   (resolve_partitions_input [str "Visual Studio Code", str "Google Chrome"]
      [str "visual-studio-code"]).2.2 (str "Visual Studio Code") (by decide)⟩

/-- C2: enrichment of one unresolved entry: if the case-folded `normalized`
field is a key of `VENDOR_MAP` the record gets the table URL and confidence
`high`, otherwise the literal `"Not found"` and confidence `low`; in
particular `normalized = "discord"` gets the Discord download URL with
confidence `high`. -/
theorem enrichItem_vendor_lookup (a n : Option PyStr) :
    (∀ url : PyStr, dictGet (pyLower (n.getD [])) VENDOR_MAP = some url →
        enrichItem ⟨a, n⟩ = ⟨a, n, url, str "high"⟩)
  ∧ (dictGet (pyLower (n.getD [])) VENDOR_MAP = none →
        enrichItem ⟨a, n⟩ = ⟨a, n, str "Not found", str "low"⟩)
  ∧ enrichItem ⟨a, some (str "discord")⟩
      = ⟨a, some (str "discord"), str "https://discord.com/download", str "high"⟩ := by
  refine ⟨?_, ?_, rfl⟩
  · intro url hurl
    simp only [enrichItem, hurl]
  · intro hnone
    simp only [enrichItem, hnone]

/-- Witness for C2: the entry `normalized = "Discord"` case-folds to a
`VENDOR_MAP` hit and is enriched with the Discord URL and high confidence. -/
theorem enrichItem_vendor_lookup_witness :
    dictGet (pyLower ((some (str "Discord")).getD [])) VENDOR_MAP
      = some (str "https://discord.com/download")
  ∧ enrichItem ⟨none, some (str "Discord")⟩
      = ⟨none, some (str "Discord"), str "https://discord.com/download", str "high"⟩ :=
  ⟨by decide,
   (enrichItem_vendor_lookup none (some (str "Discord"))).1
      (str "https://discord.com/download") (by decide)⟩

/-- C3: `normalize_name` is the pure function lowercase-then-replace
(spaces and underscores become hyphens), and it is idempotent. -/
theorem normalize_name_total_idempotent :
    (∀ s : PyStr, normalize_name s =
        pyReplaceChar (chr '_') (chr '-') (pyReplaceChar (chr ' ') (chr '-') (pyLower s)))
  ∧ ∀ s : PyStr, normalize_name (normalize_name s) = normalize_name s := by
  refine ⟨fun s => rfl, fun s => ?_⟩
  rw [normalize_name_eq_map, normalize_name_eq_map, List.map_map]
  congr 1
  funext c
  exact normChar_idem c

/-- C4: the Enricher output is a permutation of the enriched records, it is
sorted ascending by the `app` key (a missing `app` reads as the empty
string), equal keys keep their input order (the key-fiber of the output is
the key-fiber of the input), a record with a missing `app` field sorts as
the empty string and hence not after any record, and the Zoom/Airtable
example of the spec sorts Airtable first. -/
theorem enrich_output_sorted_by_app (items : List InRecord) :
    List.Perm (enrichMain (some ⟨some items⟩)) (items.map enrichItem)
  ∧ (enrichMain (some ⟨some items⟩)).Pairwise
      (fun a b => strLe (appKey a) (appKey b) = true)
  ∧ (∀ k : PyStr, (enrichMain (some ⟨some items⟩)).filter (fun r => decide (appKey r = k))
      = (items.map enrichItem).filter (fun r => decide (appKey r = k)))
  ∧ (∀ (n : Option PyStr) (u c : PyStr) (r : EnrichedRecord),
      appKey ⟨none, n, u, c⟩ = [] ∧ strLe (appKey ⟨none, n, u, c⟩) (appKey r) = true)
  ∧ enrichMain (some ⟨some [⟨some (str "Zoom"), some (str "zoom")⟩,
        ⟨some (str "Airtable"), some (str "airtable")⟩]⟩)
      = [⟨some (str "Airtable"), some (str "airtable"), str "Not found", str "low"⟩,
         ⟨some (str "Zoom"), some (str "zoom"), str "https://zoom.us/download", str "high"⟩] := by
  refine ⟨pySortByApp_perm _, pairwise_pySortByApp _,
    fun k => filter_pySortByApp k _, fun n u c r => ⟨rfl, rfl⟩, by decide⟩

/-- C5: with an empty catalog (the fail-open result of a failed catalog
query), every input app falls through to `unresolved` in input order and
`brew_installable` is empty. -/
theorem resolve_empty_catalog (apps : List PyStr) :
    (resolve apps []).1 = []
  ∧ (resolve apps []).2 = apps.map (fun a => ⟨a, normalize_name a⟩) := by
  constructor
  · rw [resolve_fst]
    simp
  · rw [resolve_snd]
    simp

/-- C6: every record of the `unresolved` bucket satisfies
`normalized = normalize_name app`. -/
theorem unresolved_normalized_invariant (apps catalog : List PyStr)
    (r : UnresolvedRecord) (h : r ∈ (resolve apps catalog).2) :
    r.normalized = normalize_name r.app := by
  rw [resolve_snd apps catalog] at h
  obtain ⟨a, _, rfl⟩ := List.mem_map.mp h
  rfl

/-- Witness for C6: the record produced for `"Google Chrome"` against the
empty catalog satisfies the invariant. -/
theorem unresolved_normalized_invariant_witness :
    (⟨str "Google Chrome", str "google-chrome"⟩ : UnresolvedRecord)
      ∈ (resolve [str "Google Chrome"] []).2
  ∧ (⟨str "Google Chrome", str "google-chrome"⟩ : UnresolvedRecord).normalized
      = normalize_name (⟨str "Google Chrome", str "google-chrome"⟩ : UnresolvedRecord).app :=
  ⟨by decide, unresolved_normalized_invariant [str "Google Chrome"] [] _ (by decide)⟩

/-- C7: a missing resolved-file path, and a parsed object without an
`unresolved` key, both make the Enricher output the empty list. -/
theorem enrichMain_missing_inputs :
    enrichMain none = [] ∧ enrichMain (some ⟨none⟩) = [] :=
  ⟨rfl, rfl⟩

/-- C8: a missing `--apps-raw` path produces two empty buckets, for every
catalog. -/
theorem resolverMain_missing_file (catalog : List PyStr) :
    resolverMain none catalog = ([], []) := rfl

/-- C9: the Enricher output has the same length as the unresolved input,
erasing the two added fields gives back exactly the input records (as a
permutation, the output being sorted), and enrichment changes neither the
`app` nor the `normalized` field of any record. -/
theorem enrich_frame (items : List InRecord) :
    (enrichMain (some ⟨some items⟩)).length = items.length
  ∧ List.Perm ((enrichMain (some ⟨some items⟩)).map stripAdded) items
  ∧ ∀ item : InRecord, (enrichItem item).app = item.app
      ∧ (enrichItem item).normalized = item.normalized := by
  have hmap : (items.map enrichItem).map stripAdded = items := by
    rw [List.map_map]
    have hcomp : stripAdded ∘ enrichItem = id := funext stripAdded_enrichItem
    rw [hcomp, List.map_id]
  have hperm : List.Perm ((enrichMain (some ⟨some items⟩)).map stripAdded) items := by
    have h1 := (pySortByApp_perm (items.map enrichItem)).map stripAdded
    rw [hmap] at h1
    exact h1
  refine ⟨?_, hperm, ?_⟩
  · have := (pySortByApp_perm (items.map enrichItem)).length_eq
    simpa [enrichMain] using this
  · intro item
    have h := stripAdded_enrichItem item
    exact ⟨congrArg InRecord.app h, congrArg InRecord.normalized h⟩

/-- C10: an unresolved record with no `normalized` field is enriched with
the default empty string, which is not a `VENDOR_MAP` key, so it gets
`"Not found"` and confidence `low`. -/
theorem enrichItem_missing_normalized (a : Option PyStr) :
    dictGet (pyLower []) VENDOR_MAP = none
  ∧ enrichItem ⟨a, none⟩ = ⟨a, none, str "Not found", str "low"⟩ :=
  ⟨by decide, rfl⟩
